import Mathlib

/-!
Verification of the sink-side delivery subsystem: the Datadog Archives sink
(src/sinks/datadog_archives.rs), the Datadog Metrics sink configuration
(src/sinks/datadog/metrics/config.rs) and the synthetic generator source
(src/sources/generator.rs), shallowly embedded in Lean.

Log events are modelled as association lists from string keys to values
(the Rust code uses a BTreeMap at the top level of a LogEvent; only key
membership and lookup matter for the properties below, so insertion is
modelled as remove-then-append which preserves the map extensionally and
keeps keys duplicate-free).
-/

/-- Values stored in a log event: the variants exercised by the archives
encoding (strings, integers, timestamps and nested mappings). Timestamps
carry their Unix-millisecond instant. -/
inductive Value where
  | str (s : String)
  | int (i : Int)
  | timestamp (t : Int)
  | map (m : List (String × Value))

/-- Top level of a log event: an association list keyed by strings,
modelling the BTreeMap of a LogEvent. -/
abbrev LogMap := List (String × Value)

/-- Keys of a log map in order. -/
def keysOf (m : LogMap) : List String := m.map Prod.fst

/-- Lookup of a key, modelling BTreeMap::get. -/
def lookupA (k : String) (m : LogMap) : Option Value :=
  (m.find? (fun p => p.1 == k)).map Prod.snd

/-- Removal of a key, modelling BTreeMap::remove's effect on the map. -/
def removeA (k : String) (m : LogMap) : LogMap :=
  m.filter (fun p => !(p.1 == k))

/-- Insertion, modelling BTreeMap::insert: the key is bound to exactly the
new value afterwards. -/
def insertA (k : String) (v : Value) (m : LogMap) : LogMap :=
  removeA k m ++ [(k, v)]

/-- LogEvent::rename_key_flat: if the source key is present, its value is
removed and re-inserted under the destination key; otherwise a no-op. -/
def renameKeyFlat (fromKey toKey : String) (m : LogMap) : LogMap :=
  match lookupA fromKey m with
  | some v => insertA toKey v (removeA fromKey m)
  | none => m

/-- The process-wide log schema (vector_core::config::LogSchema): the roles
consulted by the code under verification. -/
structure LogSchema where
  timestampKey : String
  messageKey : String
  hostKey : String

/-- Default global schema returned by log_schema(). -/
def logSchemaDefault : LogSchema :=
  { timestampKey := "timestamp", messageKey := "message", hostKey := "host" }

/-- RESERVED_ATTRIBUTES of src/sinks/datadog_archives.rs lines 188-190. -/
def reservedAttributes : List String :=
  ["_id", "date", "message", "host", "source", "service", "status", "tags",
   "trace_id", "span_id"]

/-- Membership in the reserved-attribute set. -/
def isReserved (k : String) : Bool := reservedAttributes.contains k

/-- The schema-normalization steps of DatadogArchivesEncoding::encode_input
that run before custom fields are moved: insert the freshly generated _id,
replace the schema timestamp field by an RFC3339 date string (falling back
to the current time when the removed value is absent or not a timestamp),
and rename the schema message and host keys. The id string, the current
time and the RFC3339 formatter (chrono's to_rfc3339_opts, an external
collaborator) are parameters. -/
def normalizeReserved (schema : LogSchema) (rfc3339 : Int → String)
    (newId : String) (now : Int) (m : LogMap) : LogMap :=
  let m1 := insertA "_id" (Value.str newId) m
  let tsOpt := lookupA schema.timestampKey m1
  let m2 := removeA schema.timestampKey m1
  let tsVal := tsOpt.getD (Value.int now)
  let dateStr := match tsVal with
    | Value.timestamp t => rfc3339 t
    | _ => rfc3339 now
  let m3 := insertA "date" (Value.str dateStr) m2
  let m4 := renameKeyFlat schema.messageKey "message" m3
  renameKeyFlat schema.hostKey "host" m4

/-- One iteration of the loop over custom attribute keys in encode_input:
remove the key from the event (BTreeMap::remove returns the value) and,
when present, insert it into the accumulated attributes map. -/
def moveStep (st : LogMap × LogMap) (k : String) : LogMap × LogMap :=
  match lookupA k st.1 with
  | some v => (removeA k st.1, insertA k v st.2)
  | none => st

/-- Per-event schema transformation of DatadogArchivesEncoding::encode_input
(src/sinks/datadog_archives.rs lines 245-278): normalize the reserved
attributes, collect every non-reserved top-level key, move those fields
into a fresh attributes mapping and insert it at the top level. -/
def encode_input (schema : LogSchema) (rfc3339 : Int → String)
    (newId : String) (now : Int) (m : LogMap) : LogMap :=
  let m5 := normalizeReserved schema rfc3339 newId now m
  let customKeys := (keysOf m5).filter (fun k => !(isReserved k))
  let st := customKeys.foldl moveStep (m5, [])
  insertA "attributes" (Value.map st.2) st.1

/-- Big-endian byte string of the n least-significant bytes of a value,
modelling BufMut::put_int (and, for n = 4, BufMut::put_u32) of the bytes
crate on non-negative inputs. -/
def putIntBE (v : Nat) : Nat → List Nat
  | 0 => []
  | n + 1 => putIntBE (v / 256) n ++ [v % 256]

/-- Big-endian value of a byte string (specification-side reading used to
state what the id layout means). -/
def fromBEBytes (bs : List Nat) : Nat :=
  bs.foldl (fun a b => a * 256 + b) 0

/-- Standard base64 alphabet of the base64 crate's default configuration. -/
def base64Alphabet : List Char :=
  "ABCDEFGHIJKLMNOPQRSTUVWXYZabcdefghijklmnopqrstuvwxyz0123456789+/".toList

/-- Character for a six-bit group. -/
def b64EncChar (n : Nat) : Char := base64Alphabet.getD n '='

/-- Index of an alphabet character, none for anything else. -/
def b64DecChar (c : Char) : Option Nat :=
  base64Alphabet.findIdx? (fun x => x == c)

/-- base64::encode of the base64 crate: three bytes map to four alphabet
characters, a final group of one or two bytes is padded with '='. -/
def base64Encode : List Nat → List Char
  | b1 :: b2 :: b3 :: rest =>
    b64EncChar (b1 / 4) :: b64EncChar (b1 % 4 * 16 + b2 / 16) ::
      b64EncChar (b2 % 16 * 4 + b3 / 64) :: b64EncChar (b3 % 64) ::
      base64Encode rest
  | [b1, b2] =>
    [b64EncChar (b1 / 4), b64EncChar (b1 % 4 * 16 + b2 / 16),
     b64EncChar (b2 % 16 * 4), '=']
  | [b1] => [b64EncChar (b1 / 4), b64EncChar (b1 % 4 * 16), '=', '=']
  | [] => []

/-- base64::decode of the base64 crate on well-formed input: four
characters yield three bytes, with '=' padding closing the string. -/
def base64Decode : List Char → Option (List Nat)
  | [] => some []
  | c1 :: c2 :: c3 :: c4 :: rest => do
    let n1 ← b64DecChar c1
    let n2 ← b64DecChar c2
    if c3 = '=' then
      if c4 = '=' ∧ rest = [] then some [n1 * 4 + n2 / 16] else none
    else do
      let n3 ← b64DecChar c3
      if c4 = '=' then
        if rest = [] then some [n1 * 4 + n2 / 16, n2 % 16 * 16 + n3 / 4]
        else none
      else do
        let n4 ← b64DecChar c4
        let bs ← base64Decode rest
        some ((n1 * 4 + n2 / 16) :: (n2 % 16 * 16 + n3 / 4) ::
              (n3 % 4 * 64 + n4) :: bs)
  | _ => none

/-- Identifier state of DatadogArchivesEncoding: the eight random bytes
chosen at construction and the atomic 32-bit sequence counter. -/
structure DatadogArchivesEncoding where
  id_rnd_bytes : List Nat
  id_seq_number : Nat

/-- Byte layout written by DatadogArchivesEncoding::generate_log_id
(src/sinks/datadog_archives.rs lines 209-223): six low bytes of the
current Unix-millisecond timestamp big-endian, the eight random bytes,
then the four-byte sequence counter big-endian. -/
def generateLogIdBytes (nowMillis : Nat) (e : DatadogArchivesEncoding) :
    List Nat :=
  putIntBE nowMillis 6 ++ e.id_rnd_bytes ++ putIntBE e.id_seq_number 4

/-- DatadogArchivesEncoding::generate_log_id: base64 of the 18-byte id,
together with the encoder state after the relaxed fetch_add on the
counter (which wraps at 2^32 like AtomicU32). -/
def generate_log_id (nowMillis : Nat) (e : DatadogArchivesEncoding) :
    List Char × DatadogArchivesEncoding :=
  (base64Encode (generateLogIdBytes nowMillis e),
   { e with id_seq_number := (e.id_seq_number + 1) % 2 ^ 32 })

/-- Single left-to-right pass replacing non-overlapping occurrences of two
slashes by one, modelling str::replace of the object key with pattern
double-slash and replacement slash. -/
def collapseSlashes : List Char → List Char
  | [] => []
  | [c] => [c]
  | c1 :: c2 :: rest =>
    if c1 = '/' ∧ c2 = '/' then '/' :: collapseSlashes rest
    else c1 :: collapseSlashes (c2 :: rest)

/-- Absence of two consecutive slashes anywhere in a character list. -/
def noSlashPair : List Char → Bool
  | c1 :: c2 :: rest =>
    if c1 = '/' ∧ c2 = '/' then false else noSlashPair (c2 :: rest)
  | _ => true

/-- Lowercase hexadecimal digit. -/
def hexChar (n : Nat) : Char := "0123456789abcdef".toList.getD n 'x'

/-- Two lowercase hex digits of a byte. -/
def byteToHex (b : Nat) : List Char := [hexChar (b / 16 % 16), hexChar (b % 16)]

/-- Hex rendering of a byte string. -/
def bytesToHex (bs : List Nat) : List Char :=
  bs.foldr (fun b acc => byteToHex b ++ acc) []

/-- Hyphenated rendering of a 16-byte UUID as produced by
Uuid::to_string of the uuid crate: hex groups of 4, 2, 2, 2 and 6 bytes
separated by dashes. -/
def uuidToString (bs : List Nat) : List Char :=
  bytesToHex (bs.take 4) ++ '-' ::
    (bytesToHex ((bs.drop 4).take 2) ++ '-' ::
      (bytesToHex ((bs.drop 6).take 2) ++ '-' ::
        (bytesToHex ((bs.drop 8).take 2) ++ '-' :: bytesToHex (bs.drop 10))))

/-- Object key assembled by DatadogS3RequestBuilder::build_request
(src/sinks/datadog_archives.rs lines 331-341): the optional key prefix
(empty when unset), a slash, the partition key, the uuid filename and the
".json.gz" extension, then the single-pass double-slash replacement. -/
def buildRequestKey (keyPfx : Option (List Char)) (partitionKey : List Char)
    (filename : List Char) : List Char :=
  collapseSlashes
    (keyPfx.getD [] ++ '/' :: (partitionKey ++ filename ++ ".json.gz".toList))

/-- S3 storage classes supported by the configuration surface
(s3_common::config::S3StorageClass, an enumerated collaborator). -/
inductive S3StorageClass where
  | Standard
  | ReducedRedundancy
  | IntelligentTiering
  | StandardIa
  | OnezoneIa
  | Glacier
  | DeepArchive
deriving DecidableEq, Repr

/-- Debug rendering of a storage class as produced by the derived Debug
implementation used in the UnsupportedStorageClass error message. -/
def s3StorageClassDebug : S3StorageClass → String
  | S3StorageClass.Standard => "Standard"
  | S3StorageClass.ReducedRedundancy => "ReducedRedundancy"
  | S3StorageClass.IntelligentTiering => "IntelligentTiering"
  | S3StorageClass.StandardIa => "StandardIa"
  | S3StorageClass.OnezoneIa => "OnezoneIa"
  | S3StorageClass.Glacier => "Glacier"
  | S3StorageClass.DeepArchive => "DeepArchive"

/-- Batch error raised by batch-settings conversion. -/
inductive BatchError where
  | invalid
deriving DecidableEq

/-- ConfigError of src/sinks/datadog_archives.rs lines 109-117. -/
inductive ConfigError where
  | UnsupportedService (service : String)
  | UnsupportedStorageClass (storageClass : String)
  | InvalidBatchConfiguration (src : BatchError)
deriving DecidableEq

/-- Constant batch settings DEFAULT_BATCH_SETTINGS of the archives sink:
timeout 900, bytes 100000000, events 25000. -/
structure BatchSettingsC where
  timeoutSecs : Nat
  maxBytes : Nat
  maxEvents : Nat

/-- DEFAULT_BATCH_SETTINGS (src/sinks/datadog_archives.rs lines 53-56). -/
def DEFAULT_BATCH_SETTINGS : BatchSettingsC :=
  { timeoutSecs := 900, maxBytes := 100000000, maxEvents := 25000 }

/-- Modelled from the spec: BatchSettings::into_batcher_settings lives in
sinks/util/batch.rs, which is not among the provided sources. Per the
specification's data model, batch settings require at least one of
max_events or max_bytes to be finite (non-trivial); conversion fails only
when both are absent. The repository's own storage-class test exercises
this conversion on DEFAULT_BATCH_SETTINGS and asserts success. -/
def intoBatcherSettings (b : BatchSettingsC) : Except BatchError Unit :=
  if b.maxBytes = 0 ∧ b.maxEvents = 0 then Except.error BatchError.invalid
  else Except.ok ()

/-- DatadogArchivesSinkConfig::build_s3_sink
(src/sinks/datadog_archives.rs lines 140-181) restricted to its
configuration-validation effects: reject DeepArchive and Glacier storage
classes with an UnsupportedStorageClass error carrying the Debug name,
then convert the constant batch settings; every other input yields a sink
(modelled as unit). -/
def build_s3_sink (storageClass : Option S3StorageClass) :
    Except ConfigError Unit :=
  match storageClass with
  | some S3StorageClass.DeepArchive =>
    Except.error (ConfigError.UnsupportedStorageClass
      (s3StorageClassDebug S3StorageClass.DeepArchive))
  | some S3StorageClass.Glacier =>
    Except.error (ConfigError.UnsupportedStorageClass
      (s3StorageClassDebug S3StorageClass.Glacier))
  | _ =>
    match intoBatcherSettings DEFAULT_BATCH_SETTINGS with
    | Except.error e => Except.error (ConfigError.InvalidBatchConfiguration e)
    | Except.ok _ => Except.ok ()

/-- DatadogArchivesSinkConfig::new (src/sinks/datadog_archives.rs lines
122-138): the service string selects the backend; anything other than
"aws_s3" fails with UnsupportedService carrying the string. The external
AWS client construction and healthcheck are collaborators outside the
validation logic. -/
def configNew (service : String) (storageClass : Option S3StorageClass) :
    Except ConfigError Unit :=
  if service = "aws_s3" then build_s3_sink storageClass
  else Except.error (ConfigError.UnsupportedService service)

/-- GeneratorConfigError of src/sources/generator.rs lines 46-50. -/
inductive GeneratorConfigError where
  | ShuffleGeneratorItemsEmpty
deriving DecidableEq

/-- OutputFormat of src/sources/generator.rs lines 52-69. -/
inductive OutputFormat where
  | Shuffle (sequence : Bool) (lines : List String)
  | ApacheCommon
  | ApacheError
  | Syslog
  | BsdSyslog
  | Json
deriving DecidableEq

/-- OutputFormat::validate (src/sources/generator.rs lines 100-111): only
a Shuffle format with an empty lines list is rejected. -/
def OutputFormat.validate : OutputFormat → Except GeneratorConfigError Unit
  | OutputFormat.Shuffle _ lines =>
    if lines.isEmpty then Except.error GeneratorConfigError.ShuffleGeneratorItemsEmpty
    else Except.ok ()
  | _ => Except.ok ()

/-- Build error of GeneratorConfig::build: either the format validation
error or a failure of the external decoder construction. -/
inductive GeneratorBuildError where
  | config (e : GeneratorConfigError)
  | decoding (msg : String)
deriving DecidableEq

/-- GeneratorConfig::build (src/sources/generator.rs lines 199-210):
validate the format first, then build the framing and decoding chain (an
external collaborator whose outcome is a parameter), then produce the
source (modelled as unit). -/
def generatorBuild (format : OutputFormat)
    (decoderBuild : Except String Unit) : Except GeneratorBuildError Unit :=
  match format.validate with
  | Except.error e => Except.error (GeneratorBuildError.config e)
  | Except.ok _ =>
    match decoderBuild with
    | Except.error s => Except.error (GeneratorBuildError.decoding s)
    | Except.ok _ => Except.ok ()

/-- One result of the framing-and-decoding stream over a generated line:
either a batch of decoded events (events abstracted as naturals) or a
decoding error with its can_continue flag. -/
inductive DecodeResult where
  | ok (events : List Nat)
  | err (canContinue : Bool)
deriving DecidableEq

/-- Observable step of the generator source loop: entry into tick n, an
await of the fixed-period timer, or a successfully forwarded event. -/
inductive GenAction where
  | tickStart (n : Nat)
  | timerWait
  | emit (e : Nat)
deriving DecidableEq

/-- State of the inner forwarding loop: events forwarded so far, the next
send index in the downstream channel, and whether all sends succeeded. -/
structure SendState where
  emitted : List Nat
  sendIdx : Nat
  ok : Bool
deriving DecidableEq

/-- Forwarding of one decoded batch: each event takes one send slot; a
failed send (downstream closed) stops the source with an error, matching
the question-mark propagation in generator_source. -/
def sendEvents (sendOk : Nat → Bool) : List Nat → Nat → SendState
  | [], idx => { emitted := [], sendIdx := idx, ok := true }
  | e :: rest, idx =>
    if sendOk idx then
      let r := sendEvents sendOk rest (idx + 1)
      { r with emitted := e :: r.emitted }
    else { emitted := [], sendIdx := idx + 1, ok := false }

/-- Inner while-let loop of generator_source over the decode stream of one
line: forwarded batches accumulate; a decode error with can_continue true
is skipped; one with can_continue false breaks out of the stream (only the
remainder of this line is dropped); a failed send aborts. -/
def processResults (sendOk : Nat → Bool) :
    List DecodeResult → Nat → SendState
  | [], idx => { emitted := [], sendIdx := idx, ok := true }
  | DecodeResult.ok evs :: rest, idx =>
    let r := sendEvents sendOk evs idx
    if r.ok then
      let r2 := processResults sendOk rest r.sendIdx
      { emitted := r.emitted ++ r2.emitted, sendIdx := r2.sendIdx, ok := r2.ok }
    else r
  | DecodeResult.err c :: rest, idx =>
    if c then processResults sendOk rest idx
    else { emitted := [], sendIdx := idx, ok := true }

/-- Actions observed during one loop iteration: the tick entry, the timer
await when the interval is nonzero, and the events forwarded downstream. -/
def genTickActs (interval : ℚ) (r : SendState) (n : Nat) :
    List GenAction :=
  GenAction.tickStart n ::
    (if interval ≠ 0 then [GenAction.timerWait] else []) ++
      r.emitted.map GenAction.emit

/-- Outer for-loop of generator_source (src/sources/generator.rs lines
146-185), running the remaining ticks from tick n with send index idx:
each iteration polls the shutdown signal without blocking and breaks when
it is ready, awaits the interval timer only when the configured interval
is nonzero, generates a line for the tick, runs it through the decoding
chain and forwards the events; a failed send ends the source with an
error. The trace of actions and the Ok/Err outcome are returned. -/
def genLoop (interval : ℚ) (shutdownReady : Nat → Bool)
    (generateLine : Nat → String) (decodeLine : String → List DecodeResult)
    (sendOk : Nat → Bool) : Nat → Nat → Nat → List GenAction × Bool
  | 0, _, _ => ([], true)
  | remaining + 1, n, idx =>
    if shutdownReady n then ([], true)
    else
      let r := processResults sendOk (decodeLine (generateLine n)) idx
      if r.ok then
        let rest := genLoop interval shutdownReady generateLine decodeLine
          sendOk remaining (n + 1) r.sendIdx
        (genTickActs interval r n ++ rest.1, rest.2)
      else
        (genTickActs interval r n, false)

/-- generator_source: the loop over ticks 0 to count, starting with send
index 0. The f64 interval is modelled as a rational (its only uses are
the zero test and the timer period); the shutdown signal is the
tick-indexed readiness of the polled future; line generation and the
framing-plus-decoding chain are the configured collaborators. -/
def generator_source (interval : ℚ) (count : Nat)
    (shutdownReady : Nat → Bool) (generateLine : Nat → String)
    (decodeLine : String → List DecodeResult) (sendOk : Nat → Bool) :
    List GenAction × Bool :=
  genLoop interval shutdownReady generateLine decodeLine sendOk count 0 0

/-- Tick-entry recognizer for counting loop iterations in a trace. -/
def isTick : GenAction → Bool
  | GenAction.tickStart _ => true
  | _ => false

/-- Number of ticks entered in a trace. -/
def numTicks (acts : List GenAction) : Nat := acts.countP isTick

/-- Number of timer awaits in a trace. -/
def numTimerWaits (acts : List GenAction) : Nat :=
  acts.countP (fun a => a == GenAction.timerWait)

/-- Region of src/sinks/datadog/mod.rs consulted by the metrics config. -/
inductive Region where
  | Us
  | Eu
deriving DecidableEq

/-- Configuration fields of DatadogMetricsConfig used in endpoint
resolution (src/sinks/datadog/metrics/config.rs lines 68-84). -/
structure DatadogMetricsConfig where
  endpoint : Option String
  region : Option Region
  site : Option String

/-- DatadogMetricsConfig::get_site (src/sinks/datadog/metrics/config.rs
lines 159-164): the configured site, else the regional default. -/
def DatadogMetricsConfig.get_site (c : DatadogMetricsConfig) : String :=
  match c.site with
  | some s => s
  | none =>
    match c.region with
    | some Region.Eu => "datadoghq.eu"
    | some Region.Us => "datadoghq.com"
    | none => "datadoghq.com"

/-- str::replace of the package version with pattern "." and replacement
"-", as applied to built_info::PKG_VERSION. -/
def versionDash (pkgVersion : String) : String :=
  pkgVersion.map (fun c => if c = '.' then '-' else c)

/-- DatadogMetricsConfig::get_base_agent_endpoint
(src/sinks/datadog/metrics/config.rs lines 125-130): the configured
endpoint when present, else the versioned vector agent domain on the
resolved site. The compile-time package version is a parameter. -/
def DatadogMetricsConfig.get_base_agent_endpoint (pkgVersion : String)
    (c : DatadogMetricsConfig) : String :=
  match c.endpoint with
  | some e => e
  | none =>
    "https://" ++ versionDash pkgVersion ++ "-vector.agent." ++ c.get_site


theorem find?_removeA_self (k : String) (m : LogMap) :
    (removeA k m).find? (fun p => p.1 == k) = none := by
  rw [List.find?_eq_none]
  intro p hp
  rw [removeA, List.mem_filter] at hp
  simpa using hp.2

theorem find?_removeA_ne (k k' : String) (m : LogMap) (h : k' ≠ k) :
    (removeA k m).find? (fun p => p.1 == k') =
      m.find? (fun p => p.1 == k') := by
  induction m with
  | nil => rfl
  | cons a m ih =>
    by_cases hak : a.1 = k
    · have h1 : removeA k (a :: m) = removeA k m := by
        simp [removeA, List.filter_cons, hak]
      have h2 : ¬((a.1 == k') = true) := by
        simp only [beq_iff_eq, hak]
        exact Ne.symm h
      rw [h1, ih, @List.find?_cons_of_neg _ (fun p => p.1 == k') a m h2]
    · have h1 : removeA k (a :: m) = a :: removeA k m := by
        simp [removeA, List.filter_cons, hak]
      rw [h1]
      by_cases hk' : a.1 = k'
      · rw [@List.find?_cons_of_pos _ (fun p => p.1 == k') a (removeA k m)
            (by simpa using hk'),
          @List.find?_cons_of_pos _ (fun p => p.1 == k') a m
            (by simpa using hk')]
      · rw [@List.find?_cons_of_neg _ (fun p => p.1 == k') a (removeA k m)
            (by simpa using hk'),
          @List.find?_cons_of_neg _ (fun p => p.1 == k') a m
            (by simpa using hk'), ih]

theorem lookupA_removeA (k k' : String) (m : LogMap) :
    lookupA k (removeA k' m) = if k = k' then none else lookupA k m := by
  by_cases h : k = k'
  · subst h
    rw [if_pos rfl, lookupA, find?_removeA_self]
    rfl
  · rw [if_neg h, lookupA, lookupA, find?_removeA_ne _ _ _ h]

theorem lookupA_insertA_self (k : String) (v : Value) (m : LogMap) :
    lookupA k (insertA k v m) = some v := by
  rw [insertA, lookupA, List.find?_append, find?_removeA_self,
    Option.none_or,
    @List.find?_cons_of_pos _ (fun p => p.1 == k) (k, v) [] (by simp)]
  rfl

theorem lookupA_insertA_ne (k k' : String) (v : Value) (m : LogMap)
    (h : k' ≠ k) : lookupA k' (insertA k v m) = lookupA k' m := by
  have h1 : List.find? (fun p => p.1 == k') [(k, v)] = none := by
    rw [List.find?_eq_none]
    intro p hp
    rw [List.mem_singleton] at hp
    subst hp
    simpa using Ne.symm h
  rw [insertA, lookupA, List.find?_append, h1, Option.or_none, lookupA,
    find?_removeA_ne _ _ _ h]

theorem lookupA_cons_ne (k : String) (a : String × Value) (m : LogMap)
    (h : a.1 ≠ k) : lookupA k (a :: m) = lookupA k m := by
  rw [lookupA, lookupA,
    @List.find?_cons_of_neg _ (fun p => p.1 == k) a m (by simpa using h)]

theorem mem_keysOf (k : String) (m : LogMap) :
    k ∈ keysOf m ↔ lookupA k m ≠ none := by
  induction m with
  | nil => simp [keysOf, lookupA]
  | cons a m ih =>
    by_cases h : a.1 = k
    · rw [keysOf, List.map_cons, List.mem_cons, lookupA,
        @List.find?_cons_of_pos _ (fun p => p.1 == k) a m (by simpa using h)]
      simp [h]
    · rw [keysOf, List.map_cons, List.mem_cons, lookupA_cons_ne _ _ _ h]
      rw [keysOf] at ih
      rw [ih]
      simp [Ne.symm h]

theorem keysOf_removeA (k : String) (m : LogMap) :
    keysOf (removeA k m) = (keysOf m).filter (fun s => !(s == k)) := by
  rw [keysOf, keysOf, removeA, List.filter_map]
  rfl

theorem mem_keysOf_removeA (k k' : String) (m : LogMap) :
    k' ∈ keysOf (removeA k m) ↔ k' ≠ k ∧ k' ∈ keysOf m := by
  rw [keysOf_removeA, List.mem_filter]
  simp [and_comm]

theorem keysOf_insertA (k : String) (v : Value) (m : LogMap) :
    keysOf (insertA k v m) =
      (keysOf m).filter (fun s => !(s == k)) ++ [k] := by
  have h := keysOf_removeA k m
  rw [insertA, keysOf, List.map_append]
  rw [keysOf] at h
  rw [h]
  rfl

theorem mem_keysOf_insertA (k k' : String) (v : Value) (m : LogMap) :
    k' ∈ keysOf (insertA k v m) ↔ k' = k ∨ k' ∈ keysOf m := by
  rw [keysOf_insertA, List.mem_append, List.mem_filter]
  by_cases h : k' = k <;> simp [h]

theorem nodup_keysOf_removeA (k : String) (m : LogMap)
    (h : (keysOf m).Nodup) : (keysOf (removeA k m)).Nodup := by
  rw [keysOf_removeA]
  exact h.filter _

theorem nodup_keysOf_insertA (k : String) (v : Value) (m : LogMap)
    (h : (keysOf m).Nodup) : (keysOf (insertA k v m)).Nodup := by
  rw [keysOf_insertA, List.nodup_append]
  refine ⟨h.filter _, List.nodup_singleton k, ?_⟩
  intro a ha hb
  rw [List.mem_filter] at ha
  rw [List.mem_singleton] at hb
  subst hb
  simp at ha

theorem nodup_keysOf_renameKeyFlat (k k' : String) (m : LogMap)
    (h : (keysOf m).Nodup) : (keysOf (renameKeyFlat k k' m)).Nodup := by
  unfold renameKeyFlat
  cases lookupA k m with
  | none => exact h
  | some v => exact nodup_keysOf_insertA _ _ _ (nodup_keysOf_removeA _ _ h)

theorem nodup_keysOf_normalizeReserved (schema : LogSchema)
    (rfc3339 : Int → String) (newId : String) (now : Int) (m : LogMap)
    (h : (keysOf m).Nodup) :
    (keysOf (normalizeReserved schema rfc3339 newId now m)).Nodup := by
  unfold normalizeReserved
  exact nodup_keysOf_renameKeyFlat _ _ _
    (nodup_keysOf_renameKeyFlat _ _ _
      (nodup_keysOf_insertA _ _ _
        (nodup_keysOf_removeA _ _ (nodup_keysOf_insertA _ _ _ h))))

theorem keysOf_filterKey (f : String → Bool) (m : LogMap) :
    keysOf (m.filter (fun p => f p.1)) = (keysOf m).filter f := by
  rw [keysOf, keysOf, List.filter_map]
  rfl

theorem lookupA_renameKeyFlat_other (fromK toK k : String) (m : LogMap)
    (h1 : k ≠ fromK) (h2 : k ≠ toK) :
    lookupA k (renameKeyFlat fromK toK m) = lookupA k m := by
  unfold renameKeyFlat
  cases h : lookupA fromK m with
  | none => rfl
  | some v =>
    rw [lookupA_insertA_ne _ _ _ _ h2, lookupA_removeA, if_neg h1]

theorem moveFold (ks : List String) (m acc : LogMap) (hnd : ks.Nodup)
    (hsub : ∀ k ∈ ks, k ∈ keysOf m) :
    (ks.foldl moveStep (m, acc)).1 =
      m.filter (fun p => !(ks.contains p.1)) ∧
    (∀ k, lookupA k (ks.foldl moveStep (m, acc)).2 =
      if ks.contains k then lookupA k m else lookupA k acc) := by
  induction ks generalizing m acc with
  | nil =>
    constructor
    · simp
    · intro k
      simp
  | cons k0 ks ih =>
    have hk0 : k0 ∈ keysOf m := hsub k0 (List.mem_cons_self _ _)
    rw [mem_keysOf] at hk0
    cases hv : lookupA k0 m with
    | none => exact absurd hv hk0
    | some v0 =>
      have hstep : moveStep (m, acc) k0 = (removeA k0 m, insertA k0 v0 acc) := by
        simp only [moveStep]
        rw [hv]
      have hk0nin : k0 ∉ ks := (List.nodup_cons.mp hnd).1
      have hnd' : ks.Nodup := (List.nodup_cons.mp hnd).2
      have hsub' : ∀ k ∈ ks, k ∈ keysOf (removeA k0 m) := by
        intro k hk
        rw [mem_keysOf_removeA]
        exact ⟨fun he => hk0nin (he ▸ hk), hsub k (List.mem_cons_of_mem _ hk)⟩
      have ihh := ih (removeA k0 m) (insertA k0 v0 acc) hnd' hsub'
      rw [List.foldl_cons, hstep]
      constructor
      · rw [ihh.1, removeA, List.filter_filter]
        refine List.filter_congr ?_
        intro p _
        by_cases h1 : p.1 = k0 <;> by_cases h2 : ks.contains p.1 <;>
          simp [h1, h2, List.contains_cons]
      · intro k
        rw [ihh.2 k]
        by_cases hks : ks.contains k
        · have hkne : k ≠ k0 := by
            intro he
            subst he
            exact hk0nin (by simpa using hks)
          rw [if_pos hks, lookupA_removeA, if_neg hkne,
            if_pos (by
              simp only [List.contains_cons, Bool.or_eq_true]
              exact Or.inr hks)]
        · by_cases hke : k = k0
          · subst hke
            rw [if_neg hks, lookupA_insertA_self,
              if_pos (by simp [List.contains_cons]), hv]
          · rw [if_neg hks, lookupA_insertA_ne _ _ _ _ hke,
              if_neg (by simp [List.contains_cons, hke]; simpa using hks)]

theorem contains_iff_mem (k : String) (l : List String) :
    l.contains k = true ↔ k ∈ l := by
  simp [List.contains, List.elem_iff]

theorem encode_input_parts (schema : LogSchema) (rfc3339 : Int → String)
    (newId : String) (now : Int) (m : LogMap)
    (hnd : (keysOf m).Nodup) :
    ∃ attrs : LogMap,
      encode_input schema rfc3339 newId now m =
        insertA "attributes" (Value.map attrs)
          ((normalizeReserved schema rfc3339 newId now m).filter
            (fun p => isReserved p.1)) ∧
      (∀ k, lookupA k attrs =
        if isReserved k then none
        else lookupA k (normalizeReserved schema rfc3339 newId now m)) := by
  have hnd5 : (keysOf (normalizeReserved schema rfc3339 newId now m)).Nodup :=
    nodup_keysOf_normalizeReserved schema rfc3339 newId now m hnd
  set m5 := normalizeReserved schema rfc3339 newId now m with hm5
  set ck := (keysOf m5).filter (fun k => !(isReserved k)) with hck
  have hndck : ck.Nodup := hnd5.filter _
  have hsub : ∀ k ∈ ck, k ∈ keysOf m5 := by
    intro k hk
    exact (List.mem_filter.mp (hck ▸ hk)).1
  obtain ⟨h1, h2⟩ := moveFold ck m5 [] hndck hsub
  have hckmem : ∀ k, ck.contains k = true ↔
      (k ∈ keysOf m5 ∧ isReserved k = false) := by
    intro k
    rw [contains_iff_mem, hck, List.mem_filter]
    simp
  refine ⟨(ck.foldl moveStep (m5, [])).2, ?_, ?_⟩
  · show insertA "attributes" (Value.map (ck.foldl moveStep (m5, [])).2)
        (ck.foldl moveStep (m5, [])).1 = _
    rw [h1]
    have heq : m5.filter (fun p => !(ck.contains p.1)) =
        m5.filter (fun p => isReserved p.1) := by
      refine List.filter_congr ?_
      intro p hp
      have hpk : p.1 ∈ keysOf m5 := List.mem_map_of_mem Prod.fst hp
      cases hcb : ck.contains p.1 with
      | true =>
        have := ((hckmem p.1).mp hcb).2
        simp [this]
      | false =>
        have hres : isReserved p.1 = true := by
          by_contra hres
          simp only [Bool.not_eq_true] at hres
          have hc : ck.contains p.1 = true := (hckmem p.1).mpr ⟨hpk, hres⟩
          rw [hcb] at hc
          exact Bool.noConfusion hc
        simp [hres]
    rw [heq]
  · intro k
    rw [h2 k]
    by_cases hr : isReserved k = true
    · have hcf : ck.contains k = false := by
        cases hcb : ck.contains k with
        | false => rfl
        | true =>
          have := ((hckmem k).mp hcb).2
          rw [hr] at this
          exact Bool.noConfusion this
      rw [if_neg (fun h => Bool.noConfusion (hcf ▸ h)), if_pos hr]
      rfl
    · simp only [Bool.not_eq_true] at hr
      by_cases hmem : k ∈ keysOf m5
      · have hct : ck.contains k = true := (hckmem k).mpr ⟨hmem, hr⟩
        rw [if_pos hct, if_neg (by simp [hr])]
      · have hcf : ck.contains k = false := by
          cases hcb : ck.contains k with
          | false => rfl
          | true => exact absurd ((hckmem k).mp hcb).1 hmem
        have hnone : lookupA k m5 = none := by
          rw [mem_keysOf] at hmem
          simpa using hmem
        rw [if_neg (fun h => Bool.noConfusion (hcf ▸ h)),
          if_neg (by simp [hr]), hnone]
        rfl

theorem lookupA_normalizeReserved_other (schema : LogSchema)
    (rfc3339 : Int → String) (newId : String) (now : Int) (m : LogMap)
    (k : String) (h1 : k ≠ "_id") (h2 : k ≠ schema.timestampKey)
    (h3 : k ≠ "date") (h4 : k ≠ schema.messageKey) (h5 : k ≠ "message")
    (h6 : k ≠ schema.hostKey) (h7 : k ≠ "host") :
    lookupA k (normalizeReserved schema rfc3339 newId now m) =
      lookupA k m := by
  simp only [normalizeReserved]
  rw [lookupA_renameKeyFlat_other _ _ _ _ h6 h7,
    lookupA_renameKeyFlat_other _ _ _ _ h4 h5,
    lookupA_insertA_ne _ _ _ _ h3, lookupA_removeA, if_neg h2,
    lookupA_insertA_ne _ _ _ _ h1]

/-- C1 (amended): for every log event passing through the archives
encoding, the output's top-level keys are exactly the reserved-attribute
keys present after normalization plus the single key "attributes", whose
value is the freshly built mapping holding exactly the non-reserved
normalized keys; no key other than "attributes" itself ever appears both
at the top level and inside the attributes mapping (the key "attributes"
can appear in both places, see the counterexample). -/
theorem c1_archives_attribute_partition (schema : LogSchema)
    (rfc3339 : Int → String) (newId : String) (now : Int) (m : LogMap)
    (hnd : (keysOf m).Nodup) :
    ∃ attrs : LogMap,
      lookupA "attributes" (encode_input schema rfc3339 newId now m)
        = some (Value.map attrs) ∧
      (∀ k, k ∈ keysOf (encode_input schema rfc3339 newId now m) ↔
        (k = "attributes" ∨ (isReserved k = true ∧
          k ∈ keysOf (normalizeReserved schema rfc3339 newId now m)))) ∧
      (∀ k, k ∈ keysOf attrs ↔ (isReserved k = false ∧
        k ∈ keysOf (normalizeReserved schema rfc3339 newId now m))) ∧
      (∀ k, k ≠ "attributes" →
        ¬(k ∈ keysOf (encode_input schema rfc3339 newId now m) ∧
          k ∈ keysOf attrs)) := by
  obtain ⟨attrs, heq, hlook⟩ :=
    encode_input_parts schema rfc3339 newId now m hnd
  have hkeysfil : ∀ k, k ∈ keysOf
      ((normalizeReserved schema rfc3339 newId now m).filter
        (fun p => isReserved p.1)) ↔
      (isReserved k = true ∧
        k ∈ keysOf (normalizeReserved schema rfc3339 newId now m)) := by
    intro k
    rw [keysOf_filterKey, List.mem_filter]
    exact and_comm
  have hout : ∀ k, k ∈ keysOf (encode_input schema rfc3339 newId now m) ↔
      (k = "attributes" ∨ (isReserved k = true ∧
        k ∈ keysOf (normalizeReserved schema rfc3339 newId now m))) := by
    intro k
    rw [heq, mem_keysOf_insertA, hkeysfil]
  have hattr : ∀ k, k ∈ keysOf attrs ↔ (isReserved k = false ∧
      k ∈ keysOf (normalizeReserved schema rfc3339 newId now m)) := by
    intro k
    rw [mem_keysOf, hlook k]
    by_cases hres : isReserved k = true
    · rw [if_pos hres]
      simp [hres]
    · simp only [Bool.not_eq_true] at hres
      rw [if_neg (by simp [hres]), ← mem_keysOf]
      simp [hres]
  refine ⟨attrs, ?_, hout, hattr, ?_⟩
  · rw [heq, lookupA_insertA_self]
  · intro k hkne hk
    rcases (hout k).mp hk.1 with h | h
    · exact hkne h
    · have := (hattr k).mp hk.2
      rw [h.1] at this
      exact Bool.noConfusion this.1

/-- C1 counterexample: an event carrying a top-level "attributes" field.
After encoding, the key "attributes" is simultaneously a top-level key of
the output and a key inside the freshly built attributes mapping, so the
claim that no key appears both at top level and inside attributes fails. -/
theorem c1_counterexample :
    "attributes" ∈ keysOf
      (encode_input logSchemaDefault (fun _ => "T") "ID0" 0
        [("attributes", Value.str "x")]) ∧
    lookupA "attributes"
      (encode_input logSchemaDefault (fun _ => "T") "ID0" 0
        [("attributes", Value.str "x")]) =
      some (Value.map [("attributes", Value.str "x")]) ∧
    "attributes" ∈ keysOf [("attributes", Value.str "x")] := by
  refine ⟨by decide, rfl, by decide⟩

/-- C1 witness: the amended theorem applied at a concrete event with one
custom field. -/
theorem c1_witness :
    ∃ attrs : LogMap,
      lookupA "attributes"
        (encode_input logSchemaDefault (fun _ => "T") "ID0" 0
          [("foo", Value.str "bar")]) = some (Value.map attrs) ∧
      "foo" ∈ keysOf attrs := by
  obtain ⟨attrs, h1, _, h3, _⟩ :=
    c1_archives_attribute_partition logSchemaDefault (fun _ => "T") "ID0" 0
      [("foo", Value.str "bar")] (by decide)
  exact ⟨attrs, h1, (h3 "foo").mpr ⟨by decide, by decide⟩⟩

/-- C10: an input log event already carrying a top-level attributes field
has that original value moved under the key "attributes" inside the
freshly built attributes mapping, one level deeper, while the top-level
attributes key of the output always holds the freshly built mapping
(whose keys are all non-reserved). -/
theorem c10_preexisting_attributes_nested (rfc3339 : Int → String)
    (newId : String) (now : Int) (m : LogMap) (v : Value)
    (hnd : (keysOf m).Nodup)
    (hv : lookupA "attributes" m = some v) :
    ∃ attrs : LogMap,
      lookupA "attributes"
        (encode_input logSchemaDefault rfc3339 newId now m)
        = some (Value.map attrs) ∧
      lookupA "attributes" attrs = some v ∧
      (∀ k, k ∈ keysOf attrs → isReserved k = false) := by
  obtain ⟨attrs, heq, hlook⟩ :=
    encode_input_parts logSchemaDefault rfc3339 newId now m hnd
  have hm5 : lookupA "attributes"
      (normalizeReserved logSchemaDefault rfc3339 newId now m) = some v := by
    rw [lookupA_normalizeReserved_other _ _ _ _ _ _ (by decide) (by decide)
      (by decide) (by decide) (by decide) (by decide) (by decide)]
    exact hv
  refine ⟨attrs, ?_, ?_, ?_⟩
  · rw [heq, lookupA_insertA_self]
  · rw [hlook "attributes", if_neg (by decide), hm5]
  · intro k hk
    rw [mem_keysOf] at hk
    cases hres : isReserved k with
    | false => rfl
    | true =>
      exact absurd (by rw [hlook k, if_pos hres]) hk

/-- C10 witness: a concrete event whose attributes field is a string. -/
theorem c10_witness :
    ∃ attrs : LogMap,
      lookupA "attributes"
        (encode_input logSchemaDefault (fun _ => "T") "ID0" 0
          [("attributes", Value.str "orig")])
        = some (Value.map attrs) ∧
      lookupA "attributes" attrs = some (Value.str "orig") := by
  obtain ⟨attrs, h1, h2, _⟩ :=
    c10_preexisting_attributes_nested (fun _ => "T") "ID0" 0
      [("attributes", Value.str "orig")] (Value.str "orig")
      (by decide) rfl
  exact ⟨attrs, h1, h2⟩

theorem decEnc : ∀ n < 64, b64DecChar (b64EncChar n) = some n := by decide

theorem encNe : ∀ n < 64, b64EncChar n ≠ '=' := by decide

theorem base64_roundtrip : ∀ (bs : List Nat), (∀ b ∈ bs, b < 256) →
    bs.length % 3 = 0 → base64Decode (base64Encode bs) = some bs
  | [], _, _ => rfl
  | [b1], _, hl => by simp at hl
  | [b1, b2], _, hl => by simp at hl
  | b1 :: b2 :: b3 :: rest, hb, hl => by
    have hb1 : b1 < 256 := hb b1 (by simp)
    have hb2 : b2 < 256 := hb b2 (by simp)
    have hb3 : b3 < 256 := hb b3 (by simp)
    have ihl : rest.length % 3 = 0 := by
      simp only [List.length_cons] at hl
      omega
    have ih := base64_roundtrip rest (fun b hbm => hb b (by simp [hbm])) ihl
    have h1 := decEnc (b1 / 4) (by omega)
    have h2 := decEnc (b1 % 4 * 16 + b2 / 16) (by omega)
    have h3 := decEnc (b2 % 16 * 4 + b3 / 64) (by omega)
    have h4 := decEnc (b3 % 64) (by omega)
    have hc3 := encNe (b2 % 16 * 4 + b3 / 64) (by omega)
    have hc4 := encNe (b3 % 64) (by omega)
    simp only [base64Encode, base64Decode, h1, h2, h3, h4,
      if_neg hc3, if_neg hc4, ih]
    have e1 : b1 / 4 * 4 + (b1 % 4 * 16 + b2 / 16) / 16 = b1 := by omega
    have e2 : (b1 % 4 * 16 + b2 / 16) % 16 * 16 +
        (b2 % 16 * 4 + b3 / 64) / 4 = b2 := by omega
    have e3 : (b2 % 16 * 4 + b3 / 64) % 4 * 64 + b3 % 64 = b3 := by omega
    show some ((b1 / 4 * 4 + (b1 % 4 * 16 + b2 / 16) / 16) ::
        ((b1 % 4 * 16 + b2 / 16) % 16 * 16 + (b2 % 16 * 4 + b3 / 64) / 4) ::
        ((b2 % 16 * 4 + b3 / 64) % 4 * 64 + b3 % 64) :: rest) =
      some (b1 :: b2 :: b3 :: rest)
    rw [e1, e2, e3]

theorem putIntBE_length (n : Nat) : ∀ v, (putIntBE v n).length = n := by
  induction n with
  | zero => intro v; rfl
  | succ n ih =>
    intro v
    rw [putIntBE, List.length_append, ih]
    simp

theorem putIntBE_lt (n : Nat) : ∀ v, ∀ b ∈ putIntBE v n, b < 256 := by
  induction n with
  | zero => intro v b hb; simp [putIntBE] at hb
  | succ n ih =>
    intro v b hb
    rw [putIntBE, List.mem_append] at hb
    rcases hb with h | h
    · exact ih _ b h
    · rw [List.mem_singleton] at h
      subst h
      exact Nat.mod_lt _ (by omega)

theorem fromBEBytes_append_one (l : List Nat) (b : Nat) :
    fromBEBytes (l ++ [b]) = fromBEBytes l * 256 + b := by
  simp [fromBEBytes, List.foldl_append]

theorem fromBEBytes_putIntBE (n : Nat) : ∀ v,
    fromBEBytes (putIntBE v n) = v % 256 ^ n := by
  induction n with
  | zero => intro v; simp [fromBEBytes, putIntBE, Nat.mod_one]
  | succ n ih =>
    intro v
    rw [putIntBE, fromBEBytes_append_one, ih, pow_succ', Nat.mod_mul]
    ring

/-- C2: every _id produced by the archives encoder decodes from base64 to
exactly 18 bytes: the six least-significant bytes of the current Unix
millisecond timestamp in big-endian order, the eight random bytes fixed at
encoder construction (which the state keeps unchanged), then the four-byte
big-endian counter, which increments by one per generated id and wraps at
2^32. -/
theorem c2_generate_log_id_layout (nowMillis : Nat)
    (e : DatadogArchivesEncoding) (hlen : e.id_rnd_bytes.length = 8)
    (hbound : ∀ b ∈ e.id_rnd_bytes, b < 256) :
    base64Decode (generate_log_id nowMillis e).1 =
      some (generateLogIdBytes nowMillis e) ∧
    (generateLogIdBytes nowMillis e).length = 18 ∧
    (generateLogIdBytes nowMillis e).take 6 = putIntBE nowMillis 6 ∧
    fromBEBytes ((generateLogIdBytes nowMillis e).take 6) =
      nowMillis % 2 ^ 48 ∧
    ((generateLogIdBytes nowMillis e).drop 6).take 8 = e.id_rnd_bytes ∧
    fromBEBytes ((generateLogIdBytes nowMillis e).drop 14) =
      e.id_seq_number % 2 ^ 32 ∧
    (generate_log_id nowMillis e).2.id_seq_number =
      (e.id_seq_number + 1) % 2 ^ 32 ∧
    (generate_log_id nowMillis e).2.id_rnd_bytes = e.id_rnd_bytes := by
  have hassoc : generateLogIdBytes nowMillis e =
      putIntBE nowMillis 6 ++ (e.id_rnd_bytes ++ putIntBE e.id_seq_number 4) := by
    rw [generateLogIdBytes, List.append_assoc]
  have hlen6 : (putIntBE nowMillis 6).length = 6 := putIntBE_length 6 _
  have hlen4 : (putIntBE e.id_seq_number 4).length = 4 := putIntBE_length 4 _
  have hlen18 : (generateLogIdBytes nowMillis e).length = 18 := by
    rw [generateLogIdBytes, List.length_append, List.length_append,
      hlen6, hlen4, hlen]
  have htake6 : (generateLogIdBytes nowMillis e).take 6 =
      putIntBE nowMillis 6 := by
    rw [hassoc]
    exact List.take_left' hlen6
  have hbounds : ∀ b ∈ generateLogIdBytes nowMillis e, b < 256 := by
    intro b hb
    rw [hassoc, List.mem_append, List.mem_append] at hb
    rcases hb with h | h | h
    · exact putIntBE_lt 6 _ b h
    · exact hbound b h
    · exact putIntBE_lt 4 _ b h
  have h256 : (256 : Nat) ^ 6 = 2 ^ 48 := by norm_num
  have h2564 : (256 : Nat) ^ 4 = 2 ^ 32 := by norm_num
  refine ⟨?_, hlen18, htake6, ?_, ?_, ?_, rfl, rfl⟩
  · exact base64_roundtrip _ hbounds (by rw [hlen18])
  · rw [htake6, fromBEBytes_putIntBE, h256]
  · rw [hassoc, List.drop_left' hlen6]
    exact List.take_left' hlen
  · have h14 : (putIntBE nowMillis 6 ++ e.id_rnd_bytes).length = 14 := by
      rw [List.length_append, hlen6, hlen]
    rw [generateLogIdBytes, List.drop_left' h14, fromBEBytes_putIntBE, h2564]

/-- C2 witness: the id layout at a concrete timestamp, random block and
counter value. -/
theorem c2_witness :
    base64Decode
      (generate_log_id 1629734427879
        { id_rnd_bytes := [1, 2, 3, 4, 5, 6, 7, 8], id_seq_number := 5 }).1 =
      some (generateLogIdBytes 1629734427879
        { id_rnd_bytes := [1, 2, 3, 4, 5, 6, 7, 8], id_seq_number := 5 }) ∧
    (generate_log_id 1629734427879
      { id_rnd_bytes := [1, 2, 3, 4, 5, 6, 7, 8],
        id_seq_number := 5 }).2.id_seq_number = 6 := by
  have h := c2_generate_log_id_layout 1629734427879
    { id_rnd_bytes := [1, 2, 3, 4, 5, 6, 7, 8], id_seq_number := 5 }
    (by decide) (by decide)
  refine ⟨h.1, ?_⟩
  rw [h.2.2.2.2.2.2.1]
  decide

theorem collapse_of_noSlashPair : ∀ l : List Char, noSlashPair l = true →
    collapseSlashes l = l
  | [], _ => rfl
  | [c], _ => rfl
  | c1 :: c2 :: rest, h => by
    by_cases hss : c1 = '/' ∧ c2 = '/'
    · rw [noSlashPair, if_pos hss] at h
      exact Bool.noConfusion h
    · rw [noSlashPair, if_neg hss] at h
      simp only [collapseSlashes]
      rw [if_neg hss, collapse_of_noSlashPair (c2 :: rest) h]

theorem noSlashPair_of_not_mem : ∀ l : List Char, '/' ∉ l →
    noSlashPair l = true
  | [], _ => rfl
  | [c], _ => rfl
  | c1 :: c2 :: rest, h => by
    have h1 : c1 ≠ '/' := fun he => h (he ▸ List.mem_cons_self _ _)
    have h2 : '/' ∉ c2 :: rest := fun hm => h (List.mem_cons_of_mem _ hm)
    rw [noSlashPair, if_neg (fun hss => h1 hss.1)]
    exact noSlashPair_of_not_mem (c2 :: rest) h2

theorem noSlashPair_append_singleton : ∀ (l : List Char) (c : Char),
    noSlashPair l = true → c ≠ '/' → noSlashPair (l ++ [c]) = true
  | [], c, _, hc => by
    rw [List.nil_append]
    rfl
  | [c1], c, _, hc => by
    show noSlashPair [c1, c] = true
    rw [noSlashPair, if_neg (fun hss => hc hss.2)]
    rfl
  | c1 :: c2 :: rest, c, h, hc => by
    by_cases hss : c1 = '/' ∧ c2 = '/'
    · rw [noSlashPair, if_pos hss] at h
      exact Bool.noConfusion h
    · rw [noSlashPair, if_neg hss] at h
      show noSlashPair (c1 :: c2 :: (rest ++ [c])) = true
      rw [noSlashPair, if_neg hss]
      exact noSlashPair_append_singleton (c2 :: rest) c h hc

theorem collapse_append : ∀ (l cs : List Char),
    noSlashPair (l ++ cs.take 1) = true →
    collapseSlashes (l ++ cs) = l ++ collapseSlashes cs
  | [], cs, _ => rfl
  | [c], cs, h => by
    cases cs with
    | nil => rfl
    | cons c2 cs' =>
      have hss : ¬(c = '/' ∧ c2 = '/') := by
        intro hss
        rw [show ([c] ++ (c2 :: cs').take 1) = [c, c2] from rfl,
          noSlashPair, if_pos hss] at h
        exact Bool.noConfusion h
      rw [List.singleton_append]
      simp only [collapseSlashes]
      rw [if_neg hss]
      rfl
  | c1 :: c2 :: l, cs, h => by
    have hss : ¬(c1 = '/' ∧ c2 = '/') := by
      intro hss
      rw [show ((c1 :: c2 :: l) ++ cs.take 1) =
        c1 :: c2 :: (l ++ cs.take 1) from rfl, noSlashPair, if_pos hss] at h
      exact Bool.noConfusion h
    have h' : noSlashPair ((c2 :: l) ++ cs.take 1) = true := by
      rw [show ((c1 :: c2 :: l) ++ cs.take 1) =
        c1 :: c2 :: (l ++ cs.take 1) from rfl, noSlashPair, if_neg hss] at h
      exact h
    show collapseSlashes (c1 :: c2 :: (l ++ cs)) =
      c1 :: c2 :: (l ++ collapseSlashes cs)
    simp only [collapseSlashes]
    rw [if_neg hss, show (c2 :: (l ++ cs)) = ((c2 :: l) ++ cs) from rfl,
      collapse_append (c2 :: l) cs h']
    rfl

theorem collapse_slash_slash (l : List Char) :
    collapseSlashes ('/' :: '/' :: l) = '/' :: collapseSlashes l := rfl

theorem collapse_audit_key (cs : List Char) (hcs : '/' ∉ cs) :
    collapseSlashes ("audit//dt=20210823/hour=16/".toList ++ cs) =
      "audit/dt=20210823/hour=16/".toList ++ cs := by
  have hsplit : "audit//dt=20210823/hour=16/".toList ++ cs =
      "audit".toList ++
        ('/' :: '/' :: ("dt=20210823/hour=16/".toList ++ cs)) := by rfl
  rw [hsplit, collapse_append "audit".toList
    ('/' :: '/' :: ("dt=20210823/hour=16/".toList ++ cs)) (by rfl),
    collapse_slash_slash]
  have htail : noSlashPair ("dt=20210823/hour=16/".toList ++ cs.take 1) =
      true := by
    cases cs with
    | nil => rfl
    | cons c cs' =>
      have hc : c ≠ '/' := fun he => hcs (he ▸ List.mem_cons_self _ _)
      exact noSlashPair_append_singleton "dt=20210823/hour=16/".toList c
        (by rfl) hc
  rw [collapse_append _ _ htail,
    collapse_of_noSlashPair cs (noSlashPair_of_not_mem cs hcs)]
  rfl

theorem hexChar_mem : ∀ n < 16, hexChar n ∈ "0123456789abcdef".toList := by
  decide

theorem byteToHex_mem (b : Nat) :
    ∀ c ∈ byteToHex b, c ∈ "0123456789abcdef".toList := by
  intro c hc
  rw [byteToHex] at hc
  simp only [List.mem_cons, List.not_mem_nil, or_false] at hc
  rcases hc with h | h
  · subst h
    exact hexChar_mem _ (Nat.mod_lt _ (by omega))
  · subst h
    exact hexChar_mem _ (Nat.mod_lt _ (by omega))

theorem bytesToHex_mem (bs : List Nat) :
    ∀ c ∈ bytesToHex bs, c ∈ "0123456789abcdef".toList := by
  induction bs with
  | nil => intro c hc; simp [bytesToHex] at hc
  | cons b bs ih =>
    intro c hc
    rw [show bytesToHex (b :: bs) = byteToHex b ++ bytesToHex bs from rfl,
      List.mem_append] at hc
    rcases hc with h | h
    · exact byteToHex_mem b c h
    · exact ih c h

theorem bytesToHex_length (bs : List Nat) :
    (bytesToHex bs).length = 2 * bs.length := by
  induction bs with
  | nil => rfl
  | cons b bs ih =>
    rw [show bytesToHex (b :: bs) = byteToHex b ++ bytesToHex bs from rfl,
      List.length_append, ih, byteToHex, List.length_cons, List.length_cons]
    simp
    omega

theorem uuidToString_mem (bs : List Nat) :
    ∀ c ∈ uuidToString bs, c ∈ "0123456789abcdef-".toList := by
  have hsub : ∀ c ∈ "0123456789abcdef".toList,
      c ∈ "0123456789abcdef-".toList := by decide
  intro c hc
  rw [uuidToString] at hc
  simp only [List.mem_append, List.mem_cons] at hc
  rcases hc with h | h | h | h | h | h | h | h | h
  · exact hsub c (bytesToHex_mem _ c h)
  · exact h ▸ (by decide)
  · exact hsub c (bytesToHex_mem _ c h)
  · exact h ▸ (by decide)
  · exact hsub c (bytesToHex_mem _ c h)
  · exact h ▸ (by decide)
  · exact hsub c (bytesToHex_mem _ c h)
  · exact h ▸ (by decide)
  · exact hsub c (bytesToHex_mem _ c h)

theorem uuidToString_not_slash (bs : List Nat) : '/' ∉ uuidToString bs := by
  intro h
  have := uuidToString_mem bs '/' h
  exact absurd this (by decide)

theorem uuidToString_length (bs : List Nat) (h : bs.length = 16) :
    (uuidToString bs).length = 36 := by
  rw [uuidToString]
  simp only [List.length_append, List.length_cons, bytesToHex_length,
    List.length_take, List.length_drop, h]
  norm_num

/-- C3 (amended): the object key is the key prefix, a slash, the partition
key, a v4 uuid and the ".json.gz" extension, with non-overlapping
occurrences of two slashes replaced by one in a single left-to-right pass;
the result can still contain two consecutive slashes (see the
counterexample), but with key prefix "audit" and partition key
"/dt=20210823/hour=16/" the key is exactly
"audit/dt=20210823/hour=16/" followed by 36 characters drawn from
hexadecimal digits and dashes and then ".json.gz". -/
theorem c3_s3_object_key (bs : List Nat) (hlen : bs.length = 16) :
    buildRequestKey (some "audit".toList) "/dt=20210823/hour=16/".toList
        (uuidToString bs) =
      "audit/dt=20210823/hour=16/".toList ++
        (uuidToString bs ++ ".json.gz".toList) ∧
    (uuidToString bs).length = 36 ∧
    (∀ c ∈ uuidToString bs, c ∈ "0123456789abcdef-".toList) := by
  refine ⟨?_, uuidToString_length bs hlen, uuidToString_mem bs⟩
  have harg : "audit".toList ++
      '/' :: ("/dt=20210823/hour=16/".toList ++ uuidToString bs ++
        ".json.gz".toList) =
      "audit//dt=20210823/hour=16/".toList ++
        (uuidToString bs ++ ".json.gz".toList) := by
    simp [List.append_assoc]
  have hns : '/' ∉ uuidToString bs ++ ".json.gz".toList := by
    rw [List.mem_append]
    rintro (h | h)
    · exact uuidToString_not_slash bs h
    · exact absurd h (by decide)
  show collapseSlashes ("audit".toList ++
    '/' :: ("/dt=20210823/hour=16/".toList ++ uuidToString bs ++
      ".json.gz".toList)) = _
  rw [harg, collapse_audit_key _ hns]

/-- C3 counterexample: a key prefix ending in a slash (so that the raw key
contains three consecutive slashes). The single replacement pass leaves
two consecutive slashes in the resulting object key, refuting the claim
that the result never contains two consecutive slashes. -/
theorem c3_counterexample :
    noSlashPair (buildRequestKey (some "audit/".toList)
      "/dt=20210823/hour=16/".toList
      (uuidToString (List.replicate 16 0))) = false := by decide

/-- C3 witness: the amended key shape at a concrete 16-byte uuid. -/
theorem c3_witness :
    buildRequestKey (some "audit".toList) "/dt=20210823/hour=16/".toList
        (uuidToString (List.replicate 16 0)) =
      "audit/dt=20210823/hour=16/".toList ++
        (uuidToString (List.replicate 16 0) ++ ".json.gz".toList) ∧
    (uuidToString (List.replicate 16 0)).length = 36 := by
  have h := c3_s3_object_key (List.replicate 16 0) (by decide)
  exact ⟨h.1, h.2.1⟩

/-- C4: building the archives sink rejects the DeepArchive and Glacier
storage classes at configuration time with an UnsupportedStorageClass
error naming the class, and accepts every other storage class. -/
theorem c4_storage_class_gating :
    (∀ c : S3StorageClass,
      build_s3_sink (some c) = Except.error
          (ConfigError.UnsupportedStorageClass (s3StorageClassDebug c)) ↔
        (c = S3StorageClass.DeepArchive ∨ c = S3StorageClass.Glacier)) ∧
    (∀ c : S3StorageClass, c ≠ S3StorageClass.DeepArchive →
      c ≠ S3StorageClass.Glacier →
      build_s3_sink (some c) = Except.ok ()) := by
  constructor
  · intro c
    cases c <;> simp [build_s3_sink, intoBatcherSettings,
      DEFAULT_BATCH_SETTINGS, s3StorageClassDebug]
  · intro c h1 h2
    cases c <;> first
      | rfl
      | exact absurd rfl h1
      | exact absurd rfl h2

/-- C4 witness: Standard is accepted, DeepArchive is rejected with its
class name in the error. -/
theorem c4_witness :
    build_s3_sink (some S3StorageClass.Standard) = Except.ok () ∧
    build_s3_sink (some S3StorageClass.DeepArchive) =
      Except.error (ConfigError.UnsupportedStorageClass "DeepArchive") := by
  refine ⟨c4_storage_class_gating.2 S3StorageClass.Standard
    (by decide) (by decide), ?_⟩
  exact (c4_storage_class_gating.1 S3StorageClass.DeepArchive).mpr
    (Or.inl rfl)

/-- C5: a Datadog Archives configuration whose service is any string other
than "aws_s3" fails with UnsupportedService carrying that string, and no
sink is constructed. -/
theorem c5_unsupported_service (service : String)
    (cls : Option S3StorageClass) (h : service ≠ "aws_s3") :
    configNew service cls =
      Except.error (ConfigError.UnsupportedService service) := by
  rw [configNew, if_neg h]

/-- C5 witness: a concrete unknown service string. -/
theorem c5_witness :
    configNew "azure_blob" none =
      Except.error (ConfigError.UnsupportedService "azure_blob") :=
  c5_unsupported_service "azure_blob" none (by decide)

/-- C6: validation of a generator format fails with
ShuffleGeneratorItemsEmpty exactly when the format is Shuffle with an
empty lines list; every other format validates successfully; and a failed
validation makes the build fail, preventing source construction. -/
theorem c6_shuffle_validation :
    (∀ fmt : OutputFormat,
      fmt.validate = Except.error
          GeneratorConfigError.ShuffleGeneratorItemsEmpty ↔
        ∃ seq : Bool, fmt = OutputFormat.Shuffle seq []) ∧
    (∀ fmt : OutputFormat,
      (∀ seq : Bool, fmt ≠ OutputFormat.Shuffle seq []) →
      fmt.validate = Except.ok ()) ∧
    (∀ (fmt : OutputFormat) (dec : Except String Unit)
      (e : GeneratorConfigError), fmt.validate = Except.error e →
      generatorBuild fmt dec =
        Except.error (GeneratorBuildError.config e)) := by
  refine ⟨?_, ?_, ?_⟩
  · intro fmt
    cases fmt with
    | Shuffle seq lines =>
      cases lines with
      | nil => exact iff_of_true rfl ⟨seq, rfl⟩
      | cons l ls => simp [OutputFormat.validate]
    | ApacheCommon => simp [OutputFormat.validate]
    | ApacheError => simp [OutputFormat.validate]
    | Syslog => simp [OutputFormat.validate]
    | BsdSyslog => simp [OutputFormat.validate]
    | Json => simp [OutputFormat.validate]
  · intro fmt h
    cases fmt with
    | Shuffle seq lines =>
      cases lines with
      | nil => exact absurd rfl (h seq)
      | cons l ls => rfl
    | ApacheCommon => rfl
    | ApacheError => rfl
    | Syslog => rfl
    | BsdSyslog => rfl
    | Json => rfl
  · intro fmt dec e hval
    simp only [generatorBuild, hval]

/-- C6 witness: the empty shuffle fails validation and build; the Json
format validates. -/
theorem c6_witness :
    OutputFormat.validate (OutputFormat.Shuffle false []) =
      Except.error GeneratorConfigError.ShuffleGeneratorItemsEmpty ∧
    OutputFormat.validate OutputFormat.Json = Except.ok () ∧
    generatorBuild (OutputFormat.Shuffle false []) (Except.ok ()) =
      Except.error (GeneratorBuildError.config
        GeneratorConfigError.ShuffleGeneratorItemsEmpty) := by
  have hval := (c6_shuffle_validation.1
    (OutputFormat.Shuffle false [])).mpr ⟨false, rfl⟩
  refine ⟨hval, ?_, ?_⟩
  · exact c6_shuffle_validation.2.1 OutputFormat.Json (by decide)
  · exact c6_shuffle_validation.2.2 _ _ _ hval

/-- C8: the metrics sink's resolved base agent URI is the configured
endpoint when set; otherwise it is the https scheme, the dashed package
version, "-vector.agent." and the site, where the site is the configured
one when set, else datadoghq.eu for region eu, else datadoghq.com for
region us or no region. -/
theorem c8_metrics_base_endpoint (pkgVersion : String)
    (c : DatadogMetricsConfig) :
    (∀ e, c.endpoint = some e →
      DatadogMetricsConfig.get_base_agent_endpoint pkgVersion c = e) ∧
    (c.endpoint = none → ∀ s, c.site = some s →
      DatadogMetricsConfig.get_base_agent_endpoint pkgVersion c =
        "https://" ++ versionDash pkgVersion ++ "-vector.agent." ++ s) ∧
    (c.endpoint = none → c.site = none → c.region = some Region.Eu →
      DatadogMetricsConfig.get_base_agent_endpoint pkgVersion c =
        "https://" ++ versionDash pkgVersion ++
          "-vector.agent.datadoghq.eu") ∧
    (c.endpoint = none → c.site = none →
      (c.region = none ∨ c.region = some Region.Us) →
      DatadogMetricsConfig.get_base_agent_endpoint pkgVersion c =
        "https://" ++ versionDash pkgVersion ++
          "-vector.agent.datadoghq.com") := by
  refine ⟨?_, ?_, ?_, ?_⟩
  · intro e he
    simp only [DatadogMetricsConfig.get_base_agent_endpoint, he]
  · intro he s hs
    simp only [DatadogMetricsConfig.get_base_agent_endpoint, he,
      DatadogMetricsConfig.get_site, hs]
  · intro he hs hr
    simp only [DatadogMetricsConfig.get_base_agent_endpoint, he,
      DatadogMetricsConfig.get_site, hs, hr]
    rw [String.append_assoc]
    rfl
  · intro he hs hr
    rcases hr with hr | hr <;>
      · simp only [DatadogMetricsConfig.get_base_agent_endpoint, he,
          DatadogMetricsConfig.get_site, hs, hr]
        rw [String.append_assoc]
        rfl

/-- C8 witness: endpoint resolution at concrete configurations. -/
theorem c8_witness :
    DatadogMetricsConfig.get_base_agent_endpoint "0.16.0"
        { endpoint := some "http://localhost:8080", region := none,
          site := none } = "http://localhost:8080" ∧
    DatadogMetricsConfig.get_base_agent_endpoint "0.16.0"
        { endpoint := none, region := some Region.Eu, site := none } =
      "https://" ++ versionDash "0.16.0" ++ "-vector.agent.datadoghq.eu" ∧
    DatadogMetricsConfig.get_base_agent_endpoint "0.16.0"
        { endpoint := none, region := none, site := none } =
      "https://" ++ versionDash "0.16.0" ++ "-vector.agent.datadoghq.com" := by
  refine ⟨?_, ?_, ?_⟩
  · exact (c8_metrics_base_endpoint "0.16.0" _).1 _ rfl
  · exact (c8_metrics_base_endpoint "0.16.0" _).2.2.1 rfl rfl rfl
  · exact (c8_metrics_base_endpoint "0.16.0" _).2.2.2 rfl rfl (Or.inl rfl)

theorem countP_isTick_emits (l : List Nat) :
    List.countP isTick (l.map GenAction.emit) = 0 := by
  induction l with
  | nil => rfl
  | cons e l ih =>
    rw [List.map_cons, List.countP_cons, ih]
    rfl

theorem countP_timer_emits (l : List Nat) :
    List.countP (fun a => a == GenAction.timerWait)
      (l.map GenAction.emit) = 0 := by
  induction l with
  | nil => rfl
  | cons e l ih =>
    rw [List.map_cons, List.countP_cons, ih]
    rfl

theorem numTicks_append (l1 l2 : List GenAction) :
    numTicks (l1 ++ l2) = numTicks l1 + numTicks l2 :=
  List.countP_append _ l1 l2

theorem numTimerWaits_append (l1 l2 : List GenAction) :
    numTimerWaits (l1 ++ l2) = numTimerWaits l1 + numTimerWaits l2 :=
  List.countP_append _ l1 l2

theorem numTicks_genTickActs (interval : ℚ) (r : SendState) (n : Nat) :
    numTicks (genTickActs interval r n) = 1 := by
  rw [numTicks, genTickActs, List.countP_append, List.countP_cons,
    countP_isTick_emits]
  by_cases h : interval ≠ 0 <;> simp [h, isTick]

theorem numTimerWaits_genTickActs (interval : ℚ) (r : SendState) (n : Nat) :
    numTimerWaits (genTickActs interval r n) =
      if interval ≠ 0 then 1 else 0 := by
  rw [numTimerWaits, genTickActs, List.countP_append, List.countP_cons,
    countP_timer_emits]
  by_cases h : interval ≠ 0 <;> simp [h]

theorem timerWait_not_mem_genTickActs (r : SendState) (n : Nat) :
    GenAction.timerWait ∉ genTickActs 0 r n := by
  rw [genTickActs, if_neg (by simp)]
  intro h
  simp only [List.mem_append, List.mem_cons, List.mem_map,
    List.not_mem_nil, or_false, false_or] at h
  rcases h with h | ⟨e, _, he⟩
  · exact GenAction.noConfusion h
  · exact GenAction.noConfusion he

theorem genLoop_numTicks_le (interval : ℚ) (sh : Nat → Bool)
    (gen : Nat → String) (dec : String → List DecodeResult)
    (snd : Nat → Bool) : ∀ remaining n idx,
    numTicks (genLoop interval sh gen dec snd remaining n idx).1 ≤
      remaining := by
  intro remaining
  induction remaining with
  | zero =>
    intro n idx
    exact Nat.le_refl 0
  | succ remaining ih =>
    intro n idx
    by_cases hsh : sh n = true
    · simp [genLoop, hsh, numTicks]
    · by_cases hok : (processResults snd (dec (gen n)) idx).ok = true
      · simp only [genLoop, hsh, hok, Bool.false_eq_true, eq_self_iff_true,
          if_true, if_false]
        rw [numTicks_append, numTicks_genTickActs]
        have := ih (n + 1) (processResults snd (dec (gen n)) idx).sendIdx
        omega
      · simp only [genLoop, hsh, hok, Bool.false_eq_true, eq_self_iff_true,
          if_true, if_false]
        rw [numTicks_genTickActs]
        omega

theorem genLoop_shutdown_le (interval : ℚ) (sh : Nat → Bool)
    (gen : Nat → String) (dec : String → List DecodeResult)
    (snd : Nat → Bool) (N : Nat) (hN : sh N = true) : ∀ remaining n idx,
    n ≤ N →
    numTicks (genLoop interval sh gen dec snd remaining n idx).1 ≤
      N - n := by
  intro remaining
  induction remaining with
  | zero =>
    intro n idx _
    exact Nat.zero_le _
  | succ remaining ih =>
    intro n idx hnN
    by_cases hsh : sh n = true
    · simp [genLoop, hsh, numTicks]
    · have hne : n ≠ N := fun he => hsh (he ▸ hN)
      have hlt : n < N := Nat.lt_of_le_of_ne hnN hne
      by_cases hok : (processResults snd (dec (gen n)) idx).ok = true
      · simp only [genLoop, hsh, hok, Bool.false_eq_true, eq_self_iff_true,
          if_true, if_false]
        rw [numTicks_append, numTicks_genTickActs]
        have := ih (n + 1) (processResults snd (dec (gen n)) idx).sendIdx
          (by omega)
        omega
      · simp only [genLoop, hsh, hok, Bool.false_eq_true, eq_self_iff_true,
          if_true, if_false]
        rw [numTicks_genTickActs]
        omega

theorem genLoop_no_timer (sh : Nat → Bool) (gen : Nat → String)
    (dec : String → List DecodeResult) (snd : Nat → Bool) :
    ∀ remaining n idx,
    GenAction.timerWait ∉ (genLoop 0 sh gen dec snd remaining n idx).1 := by
  intro remaining
  induction remaining with
  | zero =>
    intro n idx
    exact List.not_mem_nil _
  | succ remaining ih =>
    intro n idx
    by_cases hsh : sh n = true
    · simp [genLoop, hsh]
    · by_cases hok : (processResults snd (dec (gen n)) idx).ok = true
      · simp only [genLoop, hsh, hok, Bool.false_eq_true, eq_self_iff_true,
          if_true, if_false]
        rw [List.mem_append]
        rintro (h | h)
        · exact timerWait_not_mem_genTickActs _ _ h
        · exact ih (n + 1) _ h
      · simp only [genLoop, hsh, hok, Bool.false_eq_true, eq_self_iff_true,
          if_true, if_false]
        exact timerWait_not_mem_genTickActs _ _

theorem genLoop_timer_per_tick (interval : ℚ) (hint : interval ≠ 0)
    (sh : Nat → Bool) (gen : Nat → String)
    (dec : String → List DecodeResult) (snd : Nat → Bool) :
    ∀ remaining n idx,
    numTimerWaits (genLoop interval sh gen dec snd remaining n idx).1 =
      numTicks (genLoop interval sh gen dec snd remaining n idx).1 := by
  intro remaining
  induction remaining with
  | zero =>
    intro n idx
    rfl
  | succ remaining ih =>
    intro n idx
    by_cases hsh : sh n = true
    · simp [genLoop, hsh, numTicks, numTimerWaits]
    · by_cases hok : (processResults snd (dec (gen n)) idx).ok = true
      · simp only [genLoop, hsh, hok, Bool.false_eq_true, eq_self_iff_true,
          if_true, if_false]
        rw [numTimerWaits_append, numTicks_append, numTimerWaits_genTickActs,
          numTicks_genTickActs, if_pos hint, ih (n + 1) _]
      · simp only [genLoop, hsh, hok, Bool.false_eq_true, eq_self_iff_true,
          if_true, if_false]
        rw [numTimerWaits_genTickActs, numTicks_genTickActs, if_pos hint]

theorem processResults_append_errfalse (snd : Nat → Bool) :
    ∀ (rs extra : List DecodeResult) (idx : Nat),
    processResults snd (rs ++ DecodeResult.err false :: extra) idx =
      processResults snd rs idx
  | [], extra, idx => rfl
  | DecodeResult.ok evs :: rs, extra, idx => by
    show processResults snd
        (DecodeResult.ok evs :: (rs ++ DecodeResult.err false :: extra))
        idx = _
    simp only [processResults]
    by_cases hok : (sendEvents snd evs idx).ok = true
    · rw [if_pos hok, if_pos hok,
        processResults_append_errfalse snd rs extra _]
    · rw [if_neg hok, if_neg hok]
  | DecodeResult.err c :: rs, extra, idx => by
    show processResults snd
        (DecodeResult.err c :: (rs ++ DecodeResult.err false :: extra))
        idx = _
    simp only [processResults]
    by_cases hc : c = true
    · rw [if_pos hc, if_pos hc, processResults_append_errfalse snd rs extra _]
    · rw [if_neg hc, if_neg hc]

theorem genLoop_errfalse (interval : ℚ) (sh : Nat → Bool)
    (gen : Nat → String) (dec extra : String → List DecodeResult)
    (snd : Nat → Bool) : ∀ remaining n idx,
    genLoop interval sh gen
        (fun s => dec s ++ DecodeResult.err false :: extra s) snd
        remaining n idx =
      genLoop interval sh gen dec snd remaining n idx := by
  intro remaining
  induction remaining with
  | zero =>
    intro n idx
    rfl
  | succ remaining ih =>
    intro n idx
    by_cases hsh : sh n = true
    · simp [genLoop, hsh]
    · simp only [genLoop, hsh, Bool.false_eq_true, if_false]
      rw [processResults_append_errfalse snd (dec (gen n))
        (extra (gen n)) idx]
      simp only [ih]

theorem sendEvents_all_ok (snd : Nat → Bool) (hsnd : ∀ i, snd i = true) :
    ∀ evs idx, (sendEvents snd evs idx).ok = true := by
  intro evs
  induction evs with
  | nil =>
    intro idx
    rfl
  | cons e evs ih =>
    intro idx
    simp only [sendEvents, hsnd idx, if_true]
    exact ih (idx + 1)

theorem processResults_all_ok (snd : Nat → Bool)
    (hsnd : ∀ i, snd i = true) :
    ∀ rs idx, (processResults snd rs idx).ok = true := by
  intro rs
  induction rs with
  | nil =>
    intro idx
    rfl
  | cons r rs ih =>
    intro idx
    cases r with
    | ok evs =>
      simp only [processResults, sendEvents_all_ok snd hsnd evs idx,
        if_true]
      exact ih _
    | err c =>
      by_cases hc : c = true
      · simp only [processResults, hc, if_true]
        exact ih idx
      · simp only [processResults, if_neg hc]

theorem genLoop_all_ok (interval : ℚ) (sh : Nat → Bool)
    (gen : Nat → String) (dec : String → List DecodeResult)
    (snd : Nat → Bool) (hsnd : ∀ i, snd i = true) : ∀ remaining n idx,
    (genLoop interval sh gen dec snd remaining n idx).2 = true := by
  intro remaining
  induction remaining with
  | zero =>
    intro n idx
    rfl
  | succ remaining ih =>
    intro n idx
    by_cases hsh : sh n = true
    · simp [genLoop, hsh]
    · simp only [genLoop, hsh, Bool.false_eq_true, if_false,
        processResults_all_ok snd hsnd (dec (gen n)) idx, if_true]
      exact ih (n + 1) _

/-- C7: the generator source iterates at most count ticks (count zero
produces an empty trace, hence zero events), stops at the first tick where
the polled shutdown signal is ready (so the number of ticks never exceeds
any shutdown-ready index), never awaits the timer when the interval is
zero, and awaits it exactly once per tick when the interval is nonzero. -/
theorem c7_generator_loop_bounds (interval : ℚ) (count : Nat)
    (sh : Nat → Bool) (gen : Nat → String)
    (dec : String → List DecodeResult) (snd : Nat → Bool) :
    (count = 0 → (generator_source interval count sh gen dec snd).1 = []) ∧
    numTicks (generator_source interval count sh gen dec snd).1 ≤ count ∧
    (∀ N, sh N = true →
      numTicks (generator_source interval count sh gen dec snd).1 ≤ N) ∧
    (interval = 0 → GenAction.timerWait ∉
      (generator_source interval count sh gen dec snd).1) ∧
    (interval ≠ 0 →
      numTimerWaits (generator_source interval count sh gen dec snd).1 =
        numTicks (generator_source interval count sh gen dec snd).1) := by
  refine ⟨?_, ?_, ?_, ?_, ?_⟩
  · intro h
    subst h
    rfl
  · exact genLoop_numTicks_le interval sh gen dec snd count 0 0
  · intro N hN
    have := genLoop_shutdown_le interval sh gen dec snd N hN count 0 0
      (Nat.zero_le N)
    simpa using this
  · intro h
    subst h
    exact genLoop_no_timer sh gen dec snd count 0 0
  · intro h
    exact genLoop_timer_per_tick interval h sh gen dec snd count 0 0

/-- C7 witness: concrete cases with count zero, zero interval and nonzero
interval. -/
theorem c7_witness :
    (generator_source 0 0 (fun _ => false) (fun _ => "x")
      (fun _ => [DecodeResult.ok [0]]) (fun _ => true)).1 = [] ∧
    GenAction.timerWait ∉ (generator_source 0 3 (fun _ => false)
      (fun _ => "x") (fun _ => [DecodeResult.ok [0]]) (fun _ => true)).1 ∧
    numTimerWaits (generator_source 1 3 (fun _ => false) (fun _ => "x")
        (fun _ => [DecodeResult.ok [0]]) (fun _ => true)).1 =
      numTicks (generator_source 1 3 (fun _ => false) (fun _ => "x")
        (fun _ => [DecodeResult.ok [0]]) (fun _ => true)).1 := by
  refine ⟨?_, ?_, ?_⟩
  · exact (c7_generator_loop_bounds 0 0 (fun _ => false) (fun _ => "x")
      (fun _ => [DecodeResult.ok [0]]) (fun _ => true)).1 rfl
  · exact (c7_generator_loop_bounds 0 3 (fun _ => false) (fun _ => "x")
      (fun _ => [DecodeResult.ok [0]]) (fun _ => true)).2.2.2.1 rfl
  · exact (c7_generator_loop_bounds 1 3 (fun _ => false) (fun _ => "x")
      (fun _ => [DecodeResult.ok [0]]) (fun _ => true)).2.2.2.2
      (by norm_num)

/-- C9: a decoding error never terminates the generator source: appending
an error whose can_continue is false (followed by anything else) to the
decode stream of every line leaves the whole run unchanged, trace and
outcome alike, since such an error only stops the remainder of that one
line; and when every downstream send succeeds the source always returns
Ok, whatever the decode results contain. -/
theorem c9_decode_error_never_terminates (interval : ℚ) (count : Nat)
    (sh : Nat → Bool) (gen : Nat → String)
    (dec extra : String → List DecodeResult) (snd : Nat → Bool) :
    generator_source interval count sh gen
        (fun s => dec s ++ DecodeResult.err false :: extra s) snd =
      generator_source interval count sh gen dec snd ∧
    ((∀ i, snd i = true) →
      (generator_source interval count sh gen dec snd).2 = true) := by
  constructor
  · exact genLoop_errfalse interval sh gen dec extra snd count 0 0
  · intro hsnd
    exact genLoop_all_ok interval sh gen dec snd hsnd count 0 0

/-- C9 witness: a run whose every line ends in a non-continuable decode
error equals the run without it, and an all-successful downstream keeps
the outcome Ok. -/
theorem c9_witness :
    generator_source 0 2 (fun _ => false) (fun _ => "x")
        (fun _ => [DecodeResult.ok [7]] ++ DecodeResult.err false ::
          [DecodeResult.ok [8]]) (fun _ => true) =
      generator_source 0 2 (fun _ => false) (fun _ => "x")
        (fun _ => [DecodeResult.ok [7]]) (fun _ => true) ∧
    (generator_source 0 2 (fun _ => false) (fun _ => "x")
      (fun _ => [DecodeResult.ok [7]]) (fun _ => true)).2 = true := by
  have h := c9_decode_error_never_terminates 0 2 (fun _ => false)
    (fun _ => "x") (fun _ => [DecodeResult.ok [7]])
    (fun _ => [DecodeResult.ok [8]]) (fun _ => true)
  exact ⟨h.1, h.2 (fun _ => rfl)⟩
